import Mathlib

/-!
# RotatingFileLogger

A shallow embedding of `RotatingFileLogger.go`: a leveled logger that writes
timestamped lines to a file and rotates the file into numbered backups.

The Go code is stateful; here every operation passes the logger value and the
outside world (file system, standard error) explicitly.

## The world

* A directory maps path names to inodes, and every inode has a content.  An
  open `*os.File` is the inode it was opened on (`none` is the nil pointer), so
  that a write through a handle follows the file, not the name.
* `os.OpenFile(name, O_CREATE|O_WRONLY|O_APPEND, 0777)` fails exactly on the
  paths in `denied`; when it succeeds on a missing name it allocates the inode
  `next` with the empty content.
* `os.Open`, `os.Remove` and `os.Rename` succeed exactly when the file they
  name exists.  `Stat` and `Write` on a nil `*os.File` return `ErrInvalid`, as
  in package `os`; on an open file they succeed.
* The date and time header that `log.Logger` puts before a line is an input of
  the call (`hdr`).
-/

namespace RotatingFileLogger

/-! ## Log levels -/

def LevelTrace : Int := 0
def LevelDebug : Int := 1
def LevelInfo : Int := 2
def LevelWarning : Int := 3
def LevelError : Int := 4
def LevelCritical : Int := 5

/-! ## Operating system -/

/-- Inode numbers. -/
abbrev Ino := Nat

/-- Errors of package `os` that the logger can see. -/
inductive Error
  /-- The error `os.ErrInvalid`: a method was called on a nil `*os.File`. -/
  | ErrInvalid
  /-- The error of an `os.OpenFile` that was refused. -/
  | ErrPermission
  deriving DecidableEq, Repr

/-- The file system and the standard error stream. -/
structure World where
  /-- Directory entries: the inode a path names, if any. -/
  names : String → Option Ino
  /-- Content of every inode. -/
  data : Ino → String
  /-- The next inode number to allocate. -/
  next : Ino
  /-- Paths that `os.OpenFile` refuses to open for appending. -/
  denied : String → Bool
  /-- Everything written to standard error so far. -/
  stderr : String

/-- The call `os.OpenFile(name, os.O_CREATE|os.O_WRONLY|os.O_APPEND, 0777)`. -/
def osOpenFile (name : String) (w : World) : World × Except Error Ino :=
  if w.denied name then (w, .error .ErrPermission)
  else
    match w.names name with
    | some ino => (w, .ok ino)
    | none =>
      ({ w with
          names := Function.update w.names name (some w.next)
          data := Function.update w.data w.next ""
          next := w.next + 1 },
        .ok w.next)

/-- Whether `os.Open(name)` returns a nil error (the file is closed again at once). -/
def osOpen (name : String) (w : World) : Bool :=
  (w.names name).isSome

/-- The call `os.Remove(name)`, its error ignored. -/
def osRemove (name : String) (w : World) : World :=
  { w with names := Function.update w.names name none }

/-- The call `os.Rename(src, dst)`, its error ignored. -/
def osRename (src dst : String) (w : World) : World :=
  match w.names src with
  | none => w
  | some ino =>
    if src = dst then w
    else { w with names := Function.update (Function.update w.names dst (some ino)) src none }

/-- The method `(*os.File).Stat` followed by `Size()`. -/
def fileStat (f : Option Ino) (w : World) : Except Error Nat :=
  match f with
  | none => .error .ErrInvalid
  | some ino => .ok (w.data ino).utf8ByteSize

/-- The method `(*os.File).Write` on a file opened with `O_APPEND`. -/
def fileWrite (f : Option Ino) (bytes : String) (w : World) : World × Option Error :=
  match f with
  | none => (w, some .ErrInvalid)
  | some ino => ({ w with data := Function.update w.data ino (w.data ino ++ bytes) }, none)

/-! ## Package `fmt` -/

/-- A Go `interface{}` argument as package `fmt` sees it: the nil interface, or
a value with the name of its dynamic type (`reflect.TypeOf(v).String()`) and
its rendering under the verb `%v`. -/
inductive Value
  | nil
  | val (typeName : String) (text : String)
  deriving DecidableEq, Repr

/-- What `printArg(arg, 'v')` writes. -/
def Value.text : Value → String
  | .nil => "<nil>"
  | .val _ t => t

/-- What the `%!(EXTRA ...)` report of `Sprintf` writes for one argument. -/
def Value.extra : Value → String
  | .nil => "<nil>"
  | .val ty t => ty ++ "=" ++ t

/-- The call `fmt.Sprintln(a...)`: operands separated by spaces, then a newline. -/
def Sprintln (a : List Value) : String :=
  " ".intercalate (a.map Value.text) ++ "\n"

/-- The call `fmt.Sprintf("", a...)`: the format consumes no operand, so all of
them are reported as extra. -/
def SprintfEmpty (a : List Value) : String :=
  match a with
  | [] => ""
  | _ => "%!(EXTRA " ++ ", ".intercalate (a.map Value.extra) ++ ")"

/-- The call `fmt.Sprintf("%s.%d", base, i)` for `i ≥ 0`. -/
def rotatedName (base : String) (i : Nat) : String :=
  base ++ "." ++ toString i

/-! ## The logger -/

/-- The destination of the embedded `*log.Logger`. -/
inductive Writer
  | stderr
  | file (f : Option Ino)
  deriving DecidableEq, Repr

/-- The struct `MyLogger`. -/
structure MyLogger where
  /-- The embedded `*log.Logger`: its output destination. -/
  out : Writer
  level : Int
  baseFileName : String
  maxBytes : Int
  backupCount : Int
  baseFilePrt : Option Ino
  deriving DecidableEq, Repr

/-- The value of `new(MyLogger)` with the logger bound to standard error. -/
def stderrLogger : MyLogger :=
  { out := .stderr, level := 0, baseFileName := "", maxBytes := 0, backupCount := 0,
    baseFilePrt := none }

/-- The function `NewLog`: creates a logger, on the file `baseFileName` or, for
the empty name, on standard error. -/
def NewLog (level : Int) (baseFileName : String) (maxBytes : Int) (backupCount : Int)
    (w : World) : World × Except Error MyLogger :=
  if baseFileName ≠ "" then
    match osOpenFile baseFileName w with
    | (w1, .error err) => (w1, .error err)
    | (w1, .ok fprt) =>
      (w1, .ok
        { out := .file (some fprt)
          level := level
          baseFileName := baseFileName
          maxBytes := maxBytes
          backupCount := backupCount
          baseFilePrt := some fprt })
  else (w, .ok stderrLogger)

/-- The method `(*log.Logger).Println`: one `Write` of the header and the line
to the logger's destination.  The result of the write exists only in the
model; `Println` has no return value. -/
def Println (out : Writer) (hdr : String) (record : List Value) (w : World) :
    World × Option Error :=
  let line := hdr ++ Sprintln record
  match out with
  | .stderr => ({ w with stderr := w.stderr ++ line }, none)
  | .file f => fileWrite f line w

/-- Two's complement value of an `int64` result. -/
def wrapInt64 (x : Int) : Int :=
  (x + 2 ^ 63) % 2 ^ 64 - 2 ^ 63

/-- The size in bytes that `shouldRollover` computes for a record. -/
def recordSize (record : List Value) : Nat :=
  (SprintfEmpty record).utf8ByteSize

/-- The method `shouldRollover`: whether the supplied record would cause the
file to reach the size limit. -/
def shouldRollover (m : MyLogger) (w : World) (record : List Value) : Bool × Option Error :=
  if 0 < m.maxBytes then
    match fileStat m.baseFilePrt w with
    | .error err => (false, some err)
    | .ok size =>
      if m.maxBytes ≤ wrapInt64 ((size : Int) + (recordSize record : Int)) then (true, none)
      else (false, none)
  else (false, none)

/-- One pass of the loop body of `doRollover`, at index `i`. -/
def shiftStep (base : String) (i : Nat) (w : World) : World :=
  let sfn := rotatedName base i
  let dfn := rotatedName base (i + 1)
  let w1 := if osOpen dfn w then osRemove dfn w else w
  osRename sfn dfn w1

/-- The loop `for i := n - 1; i >= 0; i--` of `doRollover`. -/
def shiftLoop (base : String) : Nat → World → World
  | 0, w => w
  | i + 1, w => shiftLoop base i (shiftStep base i w)

/-- The method `doRollover`: shifts the backups up by one slot and reopens the
base file. -/
def doRollover (m : MyLogger) (w : World) : MyLogger × World :=
  if 0 < m.backupCount then
    let w1 := shiftLoop m.baseFileName m.backupCount.toNat w
    let dfn := m.baseFileName ++ ".1"
    let w2 := if osOpen dfn w1 then osRemove dfn w1 else w1
    -- `m.baseFilePrt.Close()` changes neither the directory nor any content
    let w3 := osRename m.baseFileName dfn w2
    let r := osOpenFile m.baseFileName w3
    let fprt : Option Ino := r.2.toOption
    ({ m with out := .file fprt, baseFilePrt := fprt }, r.1)
  else (m, w)

/-- The method `emit`: outputs one record, after a rollover if one is due. -/
def emit (m : MyLogger) (w : World) (hdr : String) (record : List Value) :
    MyLogger × World × Option Error :=
  match shouldRollover m w record with
  | (_, some err) => (m, w, some err)
  | (ok, none) =>
    let s := if ok then doRollover m w else (m, w)
    (s.1, (Println s.1.out hdr record s.2).1, none)

/-! ## Level methods -/

/-- The method `Trace`: logs a message at trace level.  The error of `emit` is dropped. -/
def MyLogger.Trace (m : MyLogger) (w : World) (hdr : String) (v : List Value) :
    MyLogger × World :=
  if m.level ≤ LevelTrace then
    let msg := [Value.val "string" "[T]"] ++ v
    let r := emit m w hdr msg
    (r.1, r.2.1)
  else (m, w)

/-- The method `Debug`: logs a message at debug level.  The error of `emit` is dropped. -/
def MyLogger.Debug (m : MyLogger) (w : World) (hdr : String) (v : List Value) :
    MyLogger × World :=
  if m.level ≤ LevelDebug then
    let msg := [Value.val "string" "[D]"] ++ v
    let r := emit m w hdr msg
    (r.1, r.2.1)
  else (m, w)

/-- The method `Info`: logs a message at info level.  The error of `emit` is dropped. -/
def MyLogger.Info (m : MyLogger) (w : World) (hdr : String) (v : List Value) :
    MyLogger × World :=
  if m.level ≤ LevelInfo then
    let msg := [Value.val "string" "[I]"] ++ v
    let r := emit m w hdr msg
    (r.1, r.2.1)
  else (m, w)

/-- The method `Warn`: logs a message at warning level.  The error of `emit` is dropped. -/
def MyLogger.Warn (m : MyLogger) (w : World) (hdr : String) (v : List Value) :
    MyLogger × World :=
  if m.level ≤ LevelWarning then
    let msg := [Value.val "string" "[W]"] ++ v
    let r := emit m w hdr msg
    (r.1, r.2.1)
  else (m, w)

/-- The method `Error`: logs a message at error level.  The error of `emit` is dropped. -/
def MyLogger.Error (m : MyLogger) (w : World) (hdr : String) (v : List Value) :
    MyLogger × World :=
  if m.level ≤ LevelError then
    let msg := [Value.val "string" "[E]"] ++ v
    let r := emit m w hdr msg
    (r.1, r.2.1)
  else (m, w)

/-- The method `Critical`: logs a message at critical level.  The error of `emit` is dropped. -/
def MyLogger.Critical (m : MyLogger) (w : World) (hdr : String) (v : List Value) :
    MyLogger × World :=
  if m.level ≤ LevelCritical then
    let msg := [Value.val "string" "[C]"] ++ v
    let r := emit m w hdr msg
    (r.1, r.2.1)
  else (m, w)

/-! ## Sequences of calls -/

/-- The calls `emit` made one after the other on the same logger, each with
its header and record; the errors they return are collected in order. -/
def emitSeq (m : MyLogger) (w : World) :
    List (String × List Value) → MyLogger × World × List (Option Error)
  | [] => (m, w, [])
  | c :: rest =>
    let r := emit m w c.1 c.2
    let s := emitSeq r.1 r.2.1 rest
    (s.1, s.2.1, r.2.2 :: s.2.2)

/-- Whether a call `emit` performs a rollover: the check says so and
`doRollover` is not a no-op. -/
def rollsOver (m : MyLogger) (w : World) (record : List Value) : Bool :=
  (shouldRollover m w record).1 && decide (0 < m.backupCount)

/-- The number of rollovers performed by a sequence of calls `emit`. -/
def rolloverCount (m : MyLogger) (w : World) : List (String × List Value) → Nat
  | [] => 0
  | c :: rest =>
    let r := emit m w c.1 c.2
    (if rollsOver m w c.2 then 1 else 0) + rolloverCount r.1 r.2.1 rest

/-- The six severities, one per level method. -/
inductive Severity
  | Trace | Debug | Info | Warning | Error | Critical
  deriving DecidableEq, Repr

/-- The level constant of a severity. -/
def Severity.level : Severity → Int
  | .Trace => LevelTrace
  | .Debug => LevelDebug
  | .Info => LevelInfo
  | .Warning => LevelWarning
  | .Error => LevelError
  | .Critical => LevelCritical

/-- The level method of a severity. -/
def MyLogger.log (m : MyLogger) (s : Severity) (w : World) (hdr : String) (v : List Value) :
    MyLogger × World :=
  match s with
  | .Trace => m.Trace w hdr v
  | .Debug => m.Debug w hdr v
  | .Info => m.Info w hdr v
  | .Warning => m.Warn w hdr v
  | .Error => m.Error w hdr v
  | .Critical => m.Critical w hdr v

/-! ## Notions used in the statements -/

/-- Content of the file a path names, if the path exists. -/
def World.content (w : World) (name : String) : Option String :=
  (w.names name).map w.data

/-- Well-formed file system: every inode a path names has been allocated. -/
def World.WF (w : World) : Prop :=
  ∀ x ino, w.names x = some ino → ino < w.next

/-- A file logger in its normal state: its handle and its `log.Logger` are
open on the inode `ino`, which is the file the base path names. -/
def Bound (m : MyLogger) (w : World) (ino : Ino) : Prop :=
  m.baseFilePrt = some ino ∧ m.out = .file (some ino) ∧ w.names m.baseFileName = some ino

/-- Bytes that the `%!(EXTRA ...)` report spends on one argument besides its
`%v` rendering: the type name and the `=` sign. -/
def Value.overhead : Value → Nat
  | .nil => 0
  | .val ty _ => ty.utf8ByteSize + 1

/-- Value of a string of decimal digits, most significant first. -/
def decimalValue (l : List Char) : Nat :=
  l.foldl (fun a c => 10 * a + (c.toNat - 48)) 0

/-! ## Example states -/

/-- A directory with the base file `app.log` and the backups `app.log.1` and
`app.log.2`. -/
def demoWorld : World :=
  { names := fun x =>
      if x = "app.log" then some 0
      else if x = "app.log.1" then some 1
      else if x = "app.log.2" then some 2
      else none
    data := fun i => if i = 0 then "c\n" else if i = 1 then "b\n" else if i = 2 then "a\n" else ""
    next := 3
    denied := fun _ => false
    stderr := "" }

/-- A directory with the base file `app.log` only. -/
def freshWorld : World :=
  { names := fun x => if x = "app.log" then some 0 else none
    data := fun _ => ""
    next := 1
    denied := fun _ => false
    stderr := "" }

/-- A file logger on `app.log`, its handle open on inode 0. -/
def demoLogger (maxBytes : Int) (backupCount : Int) : MyLogger :=
  { out := .file (some 0)
    level := LevelTrace
    baseFileName := "app.log"
    maxBytes := maxBytes
    backupCount := backupCount
    baseFilePrt := some 0 }

/-- A date and time header as `log.Ldate|log.Ltime` prints it. -/
def demoHeader : String := "2009/11/10 23:00:00 "

/-- The record of a call `Info("x")`. -/
def demoRecord : List Value := [.val "string" "[I]", .val "string" "x"]

/-- The lines that a sequence of calls `emit` writes, one after the other. -/
def allLines : List (String × List Value) → String
  | [] => ""
  | c :: rest => (c.1 ++ Sprintln c.2) ++ allLines rest

/-- The directory `demoWorld` after the base path has become unopenable. -/
def deniedWorld : World :=
  { demoWorld with denied := fun x => decide (x = "app.log") }

/-- A directory with the base file `app.log` and a file `app.log.0` that is
not part of the backup chain. -/
def strayWorld : World :=
  { names := fun x =>
      if x = "app.log" then some 0
      else if x = "app.log.0" then some 1
      else none
    data := fun i => if i = 0 then "c\n" else if i = 1 then "keep\n" else ""
    next := 2
    denied := fun _ => false
    stderr := "" }

/-- A file logger whose handle is nil, as `doRollover` leaves it when the base
file cannot be reopened. -/
def brokenLogger : MyLogger :=
  { out := .file none
    level := LevelTrace
    baseFileName := "app.log"
    maxBytes := 100
    backupCount := 2
    baseFilePrt := none }

/-- The result of the `Write` that `emit` performs through `Println`, which
the code drops; `none` also when `emit` returns before it writes. -/
def emitWriteResult (m : MyLogger) (w : World) (hdr : String) (record : List Value) :
    Option Error :=
  match shouldRollover m w record with
  | (_, some _) => none
  | (ok, none) =>
    let s := if ok then doRollover m w else (m, w)
    (Println s.1.out hdr record s.2).2

/-! ## File names -/

theorem toDigitsCore_append (b : Nat) (fuel : Nat) : ∀ (n : Nat) (ds : List Char),
    Nat.toDigitsCore b fuel n ds = Nat.toDigitsCore b fuel n [] ++ ds := by
  induction fuel with
  | zero => intro n ds; simp [Nat.toDigitsCore]
  | succ fuel ih =>
    intro n ds
    simp only [Nat.toDigitsCore]
    split
    · simp
    · rw [ih (n / b) (Nat.digitChar (n % b) :: ds), ih (n / b) [Nat.digitChar (n % b)]]
      simp

theorem digitChar_value (k : Nat) (hk : k < 10) : (Nat.digitChar k).toNat - 48 = k := by
  interval_cases k <;> rfl

theorem decimalValue_toDigitsCore (fuel : Nat) : ∀ n : Nat, n < fuel →
    decimalValue (Nat.toDigitsCore 10 fuel n []) = n := by
  induction fuel with
  | zero => intro n hn; omega
  | succ fuel ih =>
    intro n hn
    simp only [Nat.toDigitsCore]
    split
    · rename_i h
      have hlt : n % 10 < 10 := Nat.mod_lt _ (by decide)
      simp only [decimalValue, List.foldl, digitChar_value _ hlt]
      omega
    · rename_i h
      have hlt : n % 10 < 10 := Nat.mod_lt _ (by decide)
      have hdiv : n / 10 < fuel := by omega
      rw [toDigitsCore_append]
      have := ih (n / 10) hdiv
      simp only [decimalValue] at this
      simp only [decimalValue, List.foldl_append, List.foldl, this, digitChar_value _ hlt]
      omega

theorem repr_injective {i j : Nat} (h : Nat.repr i = Nat.repr j) : i = j := by
  have hd : Nat.toDigits 10 i = Nat.toDigits 10 j := by
    have := congrArg String.data h
    simpa [Nat.repr, List.asString] using this
  have hi := decimalValue_toDigitsCore (i + 1) i (Nat.lt_succ_self i)
  have hj := decimalValue_toDigitsCore (j + 1) j (Nat.lt_succ_self j)
  unfold Nat.toDigits at hd
  rw [hd] at hi
  omega

theorem rotatedName_inj {base : String} {i j : Nat}
    (h : rotatedName base i = rotatedName base j) : i = j := by
  unfold rotatedName at h
  have hd := congrArg String.data h
  simp only [String.data_append, List.append_assoc] at hd
  have h2 := List.append_cancel_left (List.append_cancel_left hd)
  exact repr_injective (String.ext h2)

theorem rotatedName_ne_base (base : String) (i : Nat) : rotatedName base i ≠ base := by
  intro h
  have hd := congrArg (fun s => s.data.length) h
  simp [rotatedName, String.data_append] at hd

theorem base_ne_rotatedName (base : String) (i : Nat) : base ≠ rotatedName base i :=
  fun h => rotatedName_ne_base base i h.symm

theorem rotatedName_one (base : String) : base ++ ".1" = rotatedName base 1 := by
  show base ++ ".1" = base ++ "." ++ "1"
  rw [String.append_assoc]
  rfl


/-! ## The shift loop -/

theorem rotatedName_succ_ne (base : String) (i : Nat) :
    rotatedName base i ≠ rotatedName base (i + 1) :=
  fun h => by have := rotatedName_inj h; omega

theorem shiftStep_names (base : String) (i : Nat) (w : World) (x : String) :
    (shiftStep base i w).names x =
      if x = rotatedName base (i + 1) then w.names (rotatedName base i)
      else if x = rotatedName base i then none
      else w.names x := by
  have hne := rotatedName_succ_ne base i
  unfold shiftStep osOpen osRemove osRename
  cases hs : w.names (rotatedName base i) <;> cases hd : w.names (rotatedName base (i + 1)) <;>
    simp [Function.update_apply, hne, hs, hd] <;> split_ifs <;> simp_all

theorem shiftStep_data (base : String) (i : Nat) (w : World) :
    (shiftStep base i w).data = w.data ∧ (shiftStep base i w).next = w.next ∧
    (shiftStep base i w).denied = w.denied ∧ (shiftStep base i w).stderr = w.stderr := by
  unfold shiftStep osOpen osRemove osRename
  cases hs : w.names (rotatedName base i) <;> cases hd : w.names (rotatedName base (i + 1)) <;>
    simp [Function.update_apply, hs, hd] <;> split_ifs <;> simp_all


theorem shiftLoop_rest (base : String) (n : Nat) : ∀ w : World,
    (shiftLoop base n w).data = w.data ∧ (shiftLoop base n w).next = w.next ∧
    (shiftLoop base n w).denied = w.denied ∧ (shiftLoop base n w).stderr = w.stderr := by
  induction n with
  | zero => intro w; simp [shiftLoop]
  | succ n ih =>
    intro w
    obtain ⟨h1, h2, h3, h4⟩ := ih (shiftStep base n w)
    obtain ⟨g1, g2, g3, g4⟩ := shiftStep_data base n w
    simp only [shiftLoop]
    exact ⟨h1.trans g1, h2.trans g2, h3.trans g3, h4.trans g4⟩

/-- Names outside `base.0 .. base.n` are not touched by the loop. -/
theorem shiftLoop_names_other (base : String) (n : Nat) : ∀ (w : World) (x : String),
    (∀ k, k ≤ n → x ≠ rotatedName base k) → (shiftLoop base n w).names x = w.names x := by
  induction n with
  | zero => intro w x _; simp [shiftLoop]
  | succ n ih =>
    intro w x hx
    simp only [shiftLoop]
    rw [ih _ x (fun k hk => hx k (by omega)), shiftStep_names]
    simp [hx (n + 1) (le_refl _), hx n (by omega)]

/-- After the loop over `n` indices, `base.k` holds what `base.(k-1)` held, for
`1 ≤ k ≤ n`, and `base.0` is gone. -/
theorem shiftLoop_names_index (base : String) (n : Nat) : ∀ (w : World) (k : Nat),
    (shiftLoop base n w).names (rotatedName base k) =
      if k = 0 then (if n = 0 then w.names (rotatedName base 0) else none)
      else if k ≤ n then w.names (rotatedName base (k - 1))
      else w.names (rotatedName base k) := by
  induction n with
  | zero =>
    intro w k
    by_cases hk : k = 0
    · subst hk; simp [shiftLoop]
    · simp [shiftLoop, hk]
  | succ n ih =>
    intro w k
    simp only [shiftLoop]
    rw [ih]
    have inj : ∀ a b : Nat, rotatedName base a = rotatedName base b ↔ a = b :=
      fun a b => ⟨rotatedName_inj, fun h => by rw [h]⟩
    simp only [shiftStep_names, inj]
    rcases Nat.lt_trichotomy k (n + 1) with h | h | h
    · by_cases hk : k = 0
      · subst hk
        by_cases hn : n = 0
        · subst hn; simp
        · simp [hn]
      · have h1 : k ≤ n := by omega
        have h2 : k - 1 ≠ n + 1 := by omega
        have h3 : k - 1 ≠ n := by omega
        have h4 : k ≤ n + 1 := by omega
        simp [hk, h1, h2, h3, h4]
    · subst h
      simp
    · have h1 : ¬ k ≤ n := by omega
      have h2 : k ≠ n + 1 := by omega
      have h3 : k ≠ n := by omega
      have h4 : ¬ k ≤ n + 1 := by omega
      have h5 : k ≠ 0 := by omega
      simp [h1, h2, h3, h4, h5]


/-! ## The effect of `doRollover` -/

theorem doRollover_names (m : MyLogger) (w : World) (hK : 0 < m.backupCount) (x : String) :
    (doRollover m w).2.names x =
      if x = m.baseFileName then (if w.denied m.baseFileName then none else some w.next)
      else if x = rotatedName m.baseFileName 1 then w.names m.baseFileName
      else (shiftLoop m.baseFileName m.backupCount.toNat w).names x := by
  obtain ⟨-, hnext, hden, -⟩ := shiftLoop_rest m.baseFileName m.backupCount.toNat w
  have hb : (shiftLoop m.baseFileName m.backupCount.toNat w).names m.baseFileName
      = w.names m.baseFileName :=
    shiftLoop_names_other _ _ _ _ (fun k _ => base_ne_rotatedName _ k)
  have hne : m.baseFileName ≠ rotatedName m.baseFileName 1 := base_ne_rotatedName _ 1
  simp only [doRollover, hK, if_true, rotatedName_one]
  generalize shiftLoop m.baseFileName m.backupCount.toNat w = w1 at *
  unfold osOpenFile osRename osOpen osRemove
  cases hs : w.names m.baseFileName <;> cases hd : w1.names (rotatedName m.baseFileName 1) <;>
    cases hden' : w.denied m.baseFileName <;>
    simp [Function.update_apply, hne, hne.symm, hs, hd, hb, hden, hden', hnext] <;>
    split_ifs <;> simp_all

theorem doRollover_rest (m : MyLogger) (w : World) (hK : 0 < m.backupCount) :
    (doRollover m w).2.data =
        (if w.denied m.baseFileName then w.data else Function.update w.data w.next "") ∧
    (doRollover m w).2.next = (if w.denied m.baseFileName then w.next else w.next + 1) ∧
    (doRollover m w).2.denied = w.denied ∧ (doRollover m w).2.stderr = w.stderr ∧
    (doRollover m w).1 =
      { m with
        out := .file (if w.denied m.baseFileName then none else some w.next)
        baseFilePrt := if w.denied m.baseFileName then none else some w.next } := by
  obtain ⟨hdata, hnext, hden, herr⟩ := shiftLoop_rest m.baseFileName m.backupCount.toNat w
  have hb : (shiftLoop m.baseFileName m.backupCount.toNat w).names m.baseFileName
      = w.names m.baseFileName :=
    shiftLoop_names_other _ _ _ _ (fun k _ => base_ne_rotatedName _ k)
  have hne : m.baseFileName ≠ rotatedName m.baseFileName 1 := base_ne_rotatedName _ 1
  simp only [doRollover, hK, if_true, rotatedName_one]
  generalize shiftLoop m.baseFileName m.backupCount.toNat w = w1 at *
  unfold osOpenFile osRename osOpen osRemove
  cases hs : w.names m.baseFileName <;> cases hd : w1.names (rotatedName m.baseFileName 1) <;>
    cases hden' : w.denied m.baseFileName <;>
    simp [Function.update_apply, hne, hne.symm, hs, hd, hb, hden, hden', hnext, hdata, herr,
      Except.toOption]

theorem doRollover_disabled (m : MyLogger) (w : World) (hK : m.backupCount ≤ 0) :
    doRollover m w = (m, w) := by
  have : ¬ 0 < m.backupCount := not_lt.mpr hK
  simp [doRollover, this]

/-- Names other than the base file and `base.0 .. base.K` keep their file. -/
theorem doRollover_frame (m : MyLogger) (w : World) (x : String)
    (hb : x ≠ m.baseFileName)
    (hx : ∀ k, k ≤ m.backupCount.toNat → x ≠ rotatedName m.baseFileName k) :
    (doRollover m w).2.names x = w.names x := by
  by_cases hK : 0 < m.backupCount
  · have h1 : 1 ≤ m.backupCount.toNat := by omega
    rw [doRollover_names m w hK, if_neg hb, if_neg (hx 1 h1)]
    exact shiftLoop_names_other _ _ _ _ hx
  · rw [doRollover_disabled m w (not_lt.mp hK)]

/-- After a rollover, `base.k` names for `k ≥ 1` are the former names one slot down. -/
theorem doRollover_names_index (m : MyLogger) (w : World) (hK : 0 < m.backupCount) (k : Nat) :
    (doRollover m w).2.names (rotatedName m.baseFileName k) =
      if k = 0 then none
      else if k = 1 then w.names m.baseFileName
      else if k ≤ m.backupCount.toNat then w.names (rotatedName m.baseFileName (k - 1))
      else w.names (rotatedName m.baseFileName k) := by
  have inj : ∀ a b : Nat, rotatedName m.baseFileName a = rotatedName m.baseFileName b ↔ a = b :=
    fun a b => ⟨rotatedName_inj, fun h => by rw [h]⟩
  have hn : m.backupCount.toNat ≠ 0 := by omega
  rw [doRollover_names m w hK, if_neg (rotatedName_ne_base _ _), shiftLoop_names_index]
  simp only [inj, hn, if_false]
  by_cases h0 : k = 0
  · subst h0; simp
  · by_cases h1 : k = 1
    · subst h1; simp
    · simp [h0, h1]


/-- The content of an allocated inode is not changed by a rollover. -/
theorem doRollover_data_of_lt (m : MyLogger) (w : World) (ino : Ino) (h : ino < w.next) :
    (doRollover m w).2.data ino = w.data ino := by
  by_cases hK : 0 < m.backupCount
  · rw [(doRollover_rest m w hK).1]
    split
    · rfl
    · rw [Function.update_apply, if_neg (Nat.ne_of_lt h)]
  · rw [doRollover_disabled m w (not_lt.mp hK)]

theorem doRollover_content (m : MyLogger) (w : World) (hwf : w.WF) (x y : String)
    (h : (doRollover m w).2.names x = w.names y) :
    (doRollover m w).2.content x = w.content y := by
  unfold World.content
  rw [h]
  cases hy : w.names y with
  | none => rfl
  | some ino => simp [doRollover_data_of_lt m w ino (hwf y ino hy)]

/-- Claim C1.  Rotation is a pure shift.  For a logger with `backupCount > 0`
on a well-formed file system, after `doRollover`: for every `i` with
`1 ≤ i < backupCount` the content (or absence) of `base.(i+1)` is the content
(or absence) that `base.i` had before; the content of `base.1` is the content
(or absence) that the base file had before; and the file that was `base.K`,
`K = backupCount`, when no other path named it, is named by no path at all. -/
theorem C1_rotation_is_pure_shift (m : MyLogger) (w : World)
    (hK : 0 < m.backupCount) (hwf : w.WF) :
    (∀ i : Nat, 1 ≤ i → (i : Int) < m.backupCount →
      (doRollover m w).2.content (rotatedName m.baseFileName (i + 1))
        = w.content (rotatedName m.baseFileName i)) ∧
    (doRollover m w).2.content (rotatedName m.baseFileName 1) = w.content m.baseFileName ∧
    (∀ ino, w.names (rotatedName m.baseFileName m.backupCount.toNat) = some ino →
      (∀ x, x ≠ rotatedName m.baseFileName m.backupCount.toNat → w.names x ≠ some ino) →
      ∀ x, (doRollover m w).2.names x ≠ some ino) := by
  refine ⟨?_, ?_, ?_⟩
  · intro i h1 hi
    apply doRollover_content m w hwf
    rw [doRollover_names_index m w hK]
    have a1 : i + 1 ≠ 0 := by omega
    have a2 : i + 1 ≠ 1 := by omega
    have a3 : i + 1 ≤ m.backupCount.toNat := by omega
    simp [a1, a2, a3]
  · apply doRollover_content m w hwf
    rw [doRollover_names_index m w hK]
    simp
  · intro ino hino hunique x
    have hn : 1 ≤ m.backupCount.toNat := by omega
    by_cases hb : x = m.baseFileName
    · subst hb
      rw [doRollover_names m w hK, if_pos rfl]
      split
      · simp
      · have := hwf _ _ hino
        simp only [ne_eq, Option.some.injEq]
        exact Nat.ne_of_gt this
    · by_cases hx : ∃ k, x = rotatedName m.baseFileName k
      · obtain ⟨k, rfl⟩ := hx
        have inj : ∀ a b : Nat,
            rotatedName m.baseFileName a = rotatedName m.baseFileName b ↔ a = b :=
          fun a b => ⟨rotatedName_inj, fun h => by rw [h]⟩
        rw [doRollover_names_index m w hK]
        split_ifs with h0 h1 h2
        · simp
        · exact hunique _ (base_ne_rotatedName _ _)
        · exact hunique _ (fun h => by have := (inj _ _).mp h; omega)
        · exact hunique _ (fun h => by have := (inj _ _).mp h; omega)
      · rw [doRollover_frame m w x hb (fun k _ h => hx ⟨k, h⟩)]
        exact hunique x (fun h => hx ⟨_, h⟩)

/-! ## The effect of `emit` -/

theorem Println_rest (out : Writer) (hdr : String) (record : List Value) (w : World) :
    (Println out hdr record w).1.names = w.names ∧
    (Println out hdr record w).1.next = w.next ∧
    (Println out hdr record w).1.denied = w.denied := by
  unfold Println fileWrite
  cases out with
  | stderr => simp
  | file f => cases f <;> simp

theorem shouldRollover_cases (m : MyLogger) (w : World) (record : List Value) :
    (∃ err, shouldRollover m w record = (false, some err)) ∨
    shouldRollover m w record = (true, none) ∨ shouldRollover m w record = (false, none) := by
  unfold shouldRollover
  split
  · split
    · exact Or.inl ⟨_, rfl⟩
    · split
      · exact Or.inr (Or.inl rfl)
      · exact Or.inr (Or.inr rfl)
  · exact Or.inr (Or.inr rfl)

theorem emit_of_error (m : MyLogger) (w : World) (hdr : String) (record : List Value)
    (err : Error) (h : shouldRollover m w record = (false, some err)) :
    emit m w hdr record = (m, w, some err) := by
  simp [emit, h]

theorem emit_of_true (m : MyLogger) (w : World) (hdr : String) (record : List Value)
    (h : shouldRollover m w record = (true, none)) :
    emit m w hdr record =
      ((doRollover m w).1,
        (Println (doRollover m w).1.out hdr record (doRollover m w).2).1, none) := by
  simp [emit, h]

theorem emit_of_false (m : MyLogger) (w : World) (hdr : String) (record : List Value)
    (h : shouldRollover m w record = (false, none)) :
    emit m w hdr record = (m, (Println m.out hdr record w).1, none) := by
  simp [emit, h]

theorem doRollover_config (m : MyLogger) (w : World) :
    (doRollover m w).1.baseFileName = m.baseFileName ∧
    (doRollover m w).1.backupCount = m.backupCount ∧
    (doRollover m w).1.maxBytes = m.maxBytes ∧
    (doRollover m w).1.level = m.level ∧
    (doRollover m w).2.denied = w.denied := by
  by_cases hK : 0 < m.backupCount
  · obtain ⟨-, -, h3, -, h5⟩ := doRollover_rest m w hK
    rw [h5]
    exact ⟨rfl, rfl, rfl, rfl, h3⟩
  · rw [doRollover_disabled m w (not_lt.mp hK)]
    exact ⟨rfl, rfl, rfl, rfl, rfl⟩

theorem emit_config (m : MyLogger) (w : World) (hdr : String) (record : List Value) :
    (emit m w hdr record).1.baseFileName = m.baseFileName ∧
    (emit m w hdr record).1.backupCount = m.backupCount ∧
    (emit m w hdr record).1.maxBytes = m.maxBytes ∧
    (emit m w hdr record).1.level = m.level ∧
    (emit m w hdr record).2.1.denied = w.denied := by
  rcases shouldRollover_cases m w record with ⟨err, h⟩ | h | h
  · rw [emit_of_error m w hdr record err h]
    exact ⟨rfl, rfl, rfl, rfl, rfl⟩
  · rw [emit_of_true m w hdr record h]
    obtain ⟨h1, h2, h3, h4, h5⟩ := doRollover_config m w
    exact ⟨h1, h2, h3, h4, (Println_rest _ _ _ _).2.2.trans h5⟩
  · rw [emit_of_false m w hdr record h]
    exact ⟨rfl, rfl, rfl, rfl, (Println_rest _ _ _ _).2.2⟩

/-- The directory after `emit` is the directory after the rollover, if one was
performed, and the directory before the call otherwise. -/
theorem emit_names (m : MyLogger) (w : World) (hdr : String) (record : List Value) :
    (emit m w hdr record).2.1.names =
      if rollsOver m w record then (doRollover m w).2.names else w.names := by
  rcases shouldRollover_cases m w record with ⟨err, h⟩ | h | h
  · rw [emit_of_error m w hdr record err h]
    simp [rollsOver, h]
  · rw [emit_of_true m w hdr record h]
    simp only [rollsOver, h, Bool.true_and, (Println_rest _ _ _ _).1]
    by_cases hK : 0 < m.backupCount
    · simp [hK]
    · simp [hK, doRollover_disabled m w (not_lt.mp hK)]
  · rw [emit_of_false m w hdr record h]
    simp [rollsOver, h, (Println_rest _ _ _ _).1]

/-- A file logger stays open on the file its base path names, as long as the
base path can be opened. -/
theorem emit_bound (m : MyLogger) (w : World) (hdr : String) (record : List Value) (ino : Ino)
    (hb : Bound m w ino) (hden : w.denied m.baseFileName = false) :
    ∃ ino1, Bound (emit m w hdr record).1 (emit m w hdr record).2.1 ino1 := by
  obtain ⟨hp, ho, hn⟩ := hb
  rcases shouldRollover_cases m w record with ⟨err, h⟩ | h | h
  · rw [emit_of_error m w hdr record err h]
    exact ⟨ino, hp, ho, hn⟩
  · rw [emit_of_true m w hdr record h]
    by_cases hK : 0 < m.backupCount
    · refine ⟨w.next, ?_, ?_, ?_⟩
      · rw [(doRollover_rest m w hK).2.2.2.2]; simp [hden]
      · rw [(doRollover_rest m w hK).2.2.2.2]; simp [hden]
      · rw [(Println_rest _ _ _ _).1, (doRollover_config m w).1, doRollover_names m w hK,
          if_pos rfl]
        simp [hden]
    · rw [doRollover_disabled m w (not_lt.mp hK)]
      exact ⟨ino, hp, ho, by rw [(Println_rest _ _ _ _).1]; exact hn⟩
  · rw [emit_of_false m w hdr record h]
    exact ⟨ino, hp, ho, by rw [(Println_rest _ _ _ _).1]; exact hn⟩

/-! ## The backup chain -/

/-- One rollover extends a chain `base.1 .. base.min(j,K)` to
`base.1 .. base.min(j+1,K)`. -/
theorem doRollover_chain (m : MyLogger) (w : World) (ino : Ino) (j : Nat)
    (hK : 0 < m.backupCount) (hbase : w.names m.baseFileName = some ino)
    (hchain : ∀ k, 1 ≤ k →
      ((w.names (rotatedName m.baseFileName k)).isSome ↔ k ≤ min j m.backupCount.toNat)) :
    ∀ k, 1 ≤ k → (((doRollover m w).2.names (rotatedName m.baseFileName k)).isSome ↔
      k ≤ min (j + 1) m.backupCount.toNat) := by
  intro k hk
  have hn : 1 ≤ m.backupCount.toNat := by omega
  rw [doRollover_names_index m w hK]
  have h0 : k ≠ 0 := by omega
  rw [if_neg h0]
  by_cases h1 : k = 1
  · subst h1
    simp only [if_true, hbase, Option.isSome_some, true_iff]
    omega
  · rw [if_neg h1]
    by_cases h2 : k ≤ m.backupCount.toNat
    · rw [if_pos h2, hchain (k - 1) (by omega)]
      omega
    · rw [if_neg h2, hchain k hk]
      omega

theorem emitSeq_chain (calls : List (String × List Value)) :
    ∀ (m : MyLogger) (w : World) (ino : Ino) (j : Nat), 0 < m.backupCount → Bound m w ino →
      w.denied m.baseFileName = false →
      (∀ k, 1 ≤ k →
        ((w.names (rotatedName m.baseFileName k)).isSome ↔ k ≤ min j m.backupCount.toNat)) →
      ∀ k, 1 ≤ k →
        (((emitSeq m w calls).2.1.names (rotatedName m.baseFileName k)).isSome ↔
          k ≤ min (j + rolloverCount m w calls) m.backupCount.toNat) := by
  induction calls with
  | nil => intro m w ino j _ _ _ hchain k hk; simpa [emitSeq, rolloverCount] using hchain k hk
  | cons c rest ih =>
    intro m w ino j hK hb hden hchain k hk
    obtain ⟨c1, c2, -, -, c5⟩ := emit_config m w c.1 c.2
    obtain ⟨ino1, hb1⟩ := emit_bound m w c.1 c.2 ino hb hden
    have hstep : ∀ k, 1 ≤ k →
        (((emit m w c.1 c.2).2.1.names (rotatedName m.baseFileName k)).isSome ↔
          k ≤ min (j + (if rollsOver m w c.2 then 1 else 0)) m.backupCount.toNat) := by
      intro k hk
      rw [emit_names]
      by_cases hr : rollsOver m w c.2 = true
      · simp only [hr, if_true]
        exact doRollover_chain m w ino j hK hb.2.2 hchain k hk
      · simp only [hr, if_false]
        simpa using hchain k hk
    have := ih (emit m w c.1 c.2).1 (emit m w c.1 c.2).2.1 ino1
      (j + (if rollsOver m w c.2 then 1 else 0))
      (by rw [c2]; exact hK) hb1 (by rw [c1, c5]; exact hden)
      (by rw [c1, c2]; exact hstep) k hk
    rw [c1, c2] at this
    simp only [emitSeq, rolloverCount]
    rw [this, Nat.add_assoc]

theorem demoWorld_WF : demoWorld.WF := by
  intro x ino h
  simp only [demoWorld] at h
  split_ifs at h <;> simp at h <;> subst h <;> decide

theorem freshWorld_WF : freshWorld.WF := by
  intro x ino h
  simp only [freshWorld] at h
  split_ifs at h
  simp at h
  subst h
  decide

theorem freshWorld_no_backup (k : Nat) : freshWorld.names (rotatedName "app.log" k) = none := by
  simp [freshWorld, rotatedName_ne_base]

theorem demoWorld_oldest_unique (x : String) (hx : x ≠ rotatedName "app.log" 2) :
    demoWorld.names x ≠ some 2 := by
  have h2 : rotatedName "app.log" 2 = "app.log.2" := by decide
  rw [h2] at hx
  simp only [demoWorld]
  split_ifs <;> simp

theorem C1_rotation_is_pure_shift_witness :
    (0 : Int) < (demoLogger 100 2).backupCount ∧
    (doRollover (demoLogger 100 2) demoWorld).2.content (rotatedName "app.log" 2)
      = demoWorld.content (rotatedName "app.log" 1) ∧
    (doRollover (demoLogger 100 2) demoWorld).2.content (rotatedName "app.log" 1)
      = demoWorld.content "app.log" ∧
    demoWorld.names (rotatedName "app.log" 2) = some 2 ∧
    (∀ x, (doRollover (demoLogger 100 2) demoWorld).2.names x ≠ some 2) :=
  ⟨by decide,
    (C1_rotation_is_pure_shift (demoLogger 100 2) demoWorld (by decide) demoWorld_WF).1 1
      (le_refl 1) (by decide),
    (C1_rotation_is_pure_shift (demoLogger 100 2) demoWorld (by decide) demoWorld_WF).2.1,
    by decide,
    (C1_rotation_is_pure_shift (demoLogger 100 2) demoWorld (by decide) demoWorld_WF).2.2 2
      (by decide) demoWorld_oldest_unique⟩

/-- Claim C2.  Bounded backup chain.  For a file logger with `backupCount = K > 0`
whose base path can be reopened, started in a directory without any rotated
file `base.k`, `k ≥ 1`: after any sequence of calls `emit`, during which `j`
rollovers were performed, the rotated files that exist are exactly
`base.1 .. base.min(j,K)`; so no `base.k` with `k > K` ever exists. -/
theorem C2_bounded_backup_chain (m : MyLogger) (w : World) (ino : Ino)
    (hK : 0 < m.backupCount) (hb : Bound m w ino) (hden : w.denied m.baseFileName = false)
    (h0 : ∀ k, 1 ≤ k → w.names (rotatedName m.baseFileName k) = none)
    (calls : List (String × List Value)) :
    ∀ k, 1 ≤ k →
      (((emitSeq m w calls).2.1.names (rotatedName m.baseFileName k)).isSome ↔
        k ≤ min (rolloverCount m w calls) m.backupCount.toNat) := by
  intro k hk
  have h := emitSeq_chain calls m w ino 0 hK hb hden
    (fun k hk => by rw [h0 k hk]; simp; omega) k hk
  simpa using h

theorem C2_bounded_backup_chain_witness :
    (0 : Int) < (demoLogger 1 2).backupCount ∧
    rolloverCount (demoLogger 1 2) freshWorld
      [(demoHeader, demoRecord), (demoHeader, demoRecord), (demoHeader, demoRecord)] = 3 ∧
    (((emitSeq (demoLogger 1 2) freshWorld
        [(demoHeader, demoRecord), (demoHeader, demoRecord), (demoHeader, demoRecord)]).2.1.names
          (rotatedName "app.log" 3)).isSome ↔
      3 ≤ min (rolloverCount (demoLogger 1 2) freshWorld
        [(demoHeader, demoRecord), (demoHeader, demoRecord), (demoHeader, demoRecord)])
        (demoLogger 1 2).backupCount.toNat) :=
  ⟨by decide, by decide,
    C2_bounded_backup_chain (demoLogger 1 2) freshWorld 0 (by decide) ⟨rfl, rfl, rfl⟩ rfl
      (fun k _ => freshWorld_no_backup k) _ 3 (by decide)⟩

/-! ## The rollover decision -/

theorem wrapInt64_of_lt (x : Int) (h0 : 0 ≤ x) (h1 : x < 2 ^ 63) : wrapInt64 x = x := by
  unfold wrapInt64
  norm_num at h1 ⊢
  omega

theorem shouldRollover_bound (m : MyLogger) (w : World) (record : List Value) (ino : Ino)
    (hp : m.baseFilePrt = some ino) (hM : 0 < m.maxBytes)
    (hsz : ((w.data ino).utf8ByteSize : Int) + (recordSize record : Int) < 2 ^ 63) :
    shouldRollover m w record =
      (decide (m.maxBytes ≤ ((w.data ino).utf8ByteSize : Int) + (recordSize record : Int)),
        none) := by
  have hw := wrapInt64_of_lt _ (by omega) hsz
  simp only [shouldRollover, hM, if_true, hp, fileStat, hw]
  split <;> simp_all

/-- Claim C3.  Rollover happens before the triggering record is appended.  For
a file logger in its normal state with `maxBytes = M > 0` and `backupCount > 0`
(on a well-formed file system, the base path reopenable, sizes within `int64`):
`emit` performs a rollover exactly when `currentFileSize + estimatedRecordSize
≥ M`.  In that case the record is written after the rollover: when `emit`
returns, the base file holds only the line of the record and `base.1` holds the
content the base file had before the call.  Otherwise the directory and the
logger are unchanged and the line is appended to the base file. -/
theorem C3_rollover_before_append (m : MyLogger) (w : World) (ino : Ino)
    (hdr : String) (record : List Value)
    (hb : Bound m w ino) (hwf : w.WF) (hM : 0 < m.maxBytes) (hK : 0 < m.backupCount)
    (hden : w.denied m.baseFileName = false)
    (hsz : ((w.data ino).utf8ByteSize : Int) + (recordSize record : Int) < 2 ^ 63) :
    (rollsOver m w record = true ↔
      m.maxBytes ≤ ((w.data ino).utf8ByteSize : Int) + (recordSize record : Int)) ∧
    (m.maxBytes ≤ ((w.data ino).utf8ByteSize : Int) + (recordSize record : Int) →
      emit m w hdr record =
        ((doRollover m w).1,
          (Println (doRollover m w).1.out hdr record (doRollover m w).2).1, none) ∧
      (emit m w hdr record).2.1.content m.baseFileName = some (hdr ++ Sprintln record) ∧
      (emit m w hdr record).2.1.content (rotatedName m.baseFileName 1) = some (w.data ino)) ∧
    (((w.data ino).utf8ByteSize : Int) + (recordSize record : Int) < m.maxBytes →
      (emit m w hdr record).1 = m ∧
      (emit m w hdr record).2.1.names = w.names ∧
      (emit m w hdr record).2.1.content m.baseFileName
        = some (w.data ino ++ (hdr ++ Sprintln record)) ∧
      (emit m w hdr record).2.2 = none) := by
  obtain ⟨hp, ho, hn⟩ := hb
  have hs := shouldRollover_bound m w record ino hp hM hsz
  refine ⟨?_, ?_, ?_⟩
  · simp [rollsOver, hs, hK]
  · intro hge
    have hs1 : shouldRollover m w record = (true, none) := by rw [hs]; simp [hge]
    have he := emit_of_true m w hdr record hs1
    obtain ⟨hdata, -, -, -, hlog⟩ := doRollover_rest m w hK
    have hout : (doRollover m w).1.out = .file (some w.next) := by rw [hlog]; simp [hden]
    have hlt : ino < w.next := hwf _ _ hn
    refine ⟨he, ?_, ?_⟩
    · rw [he]
      simp only [World.content, hout, Println, fileWrite, doRollover_names m w hK, hdata, hden]
      simp
    · rw [he]
      simp only [World.content, hout, Println, fileWrite, hdata, hden]
      rw [doRollover_names_index m w hK]
      simp [hn, Function.update_apply, Nat.ne_of_lt hlt]
  · intro hlt
    have hs1 : shouldRollover m w record = (false, none) := by
      rw [hs]; simp [not_le.mpr hlt]
    have he := emit_of_false m w hdr record hs1
    rw [he]
    simp [World.content, ho, Println, fileWrite, hn]

theorem C3_rollover_before_append_witness :
    (0 : Int) < (demoLogger 5 2).maxBytes ∧ (0 : Int) < (demoLogger 5 2).backupCount ∧
    (emit (demoLogger 5 2) demoWorld demoHeader demoRecord).2.1.content "app.log"
      = some (demoHeader ++ Sprintln demoRecord) ∧
    (emit (demoLogger 5 2) demoWorld demoHeader demoRecord).2.1.content
      (rotatedName "app.log" 1) = some (demoWorld.data 0) :=
  ⟨by decide, by decide,
    ((C3_rollover_before_append (demoLogger 5 2) demoWorld 0 demoHeader demoRecord
      ⟨rfl, rfl, rfl⟩ demoWorld_WF (by decide) (by decide) rfl (by decide)).2.1
        (by decide)).2⟩

/-! ## Rotation disabled -/

theorem emit_disabled (m : MyLogger) (w : World) (ino : Ino) (hdr : String)
    (record : List Value) (hb : Bound m w ino) (hoff : m.backupCount ≤ 0 ∨ m.maxBytes ≤ 0) :
    emit m w hdr record =
      (m, { w with data := Function.update w.data ino (w.data ino ++ (hdr ++ Sprintln record)) },
        none) := by
  obtain ⟨hp, ho, -⟩ := hb
  have hpr : (Println m.out hdr record w).1 =
      { w with data := Function.update w.data ino (w.data ino ++ (hdr ++ Sprintln record)) } := by
    simp [Println, ho, fileWrite]
  rcases shouldRollover_cases m w record with ⟨err, h⟩ | h | h
  · exfalso
    unfold shouldRollover at h
    rw [hp] at h
    simp only [fileStat] at h
    split_ifs at h <;> simp at h
  · have hK : m.backupCount ≤ 0 := by
      rcases hoff with hK | hM
      · exact hK
      · exfalso
        unfold shouldRollover at h
        simp [not_lt.mpr hM] at h
    rw [emit_of_true m w hdr record h, doRollover_disabled m w hK, hpr]
  · rw [emit_of_false m w hdr record h, hpr]

theorem emitSeq_disabled (m : MyLogger) (ino : Ino)
    (hoff : m.backupCount ≤ 0 ∨ m.maxBytes ≤ 0) (calls : List (String × List Value)) :
    ∀ w : World, Bound m w ino →
      emitSeq m w calls =
        (m, { w with data := Function.update w.data ino (w.data ino ++ allLines calls) },
          List.replicate calls.length none) := by
  induction calls with
  | nil =>
    intro w _
    simp [emitSeq, allLines]
  | cons c rest ih =>
    intro w hb
    have he := emit_disabled m w ino c.1 c.2 hb hoff
    have hb1 : Bound m
        { w with data := Function.update w.data ino (w.data ino ++ (c.1 ++ Sprintln c.2)) }
        ino := ⟨hb.1, hb.2.1, hb.2.2⟩
    simp only [emitSeq, he, ih _ hb1, allLines, List.length_cons, List.replicate_succ,
      Function.update_same, Function.update_idem, String.append_assoc]

/-- Claim C5.  Rotation disabled means append only.  For a file logger in its
normal state with `backupCount ≤ 0` or `maxBytes ≤ 0`, and every sequence of
calls `emit`: every call returns no error, the logger is unchanged, the
directory is unchanged (no file is created, renamed or deleted), the base file
is its previous content followed by the lines of the records in order, and no
other file content and nothing on standard error changes. -/
theorem C5_rotation_disabled_append_only (m : MyLogger) (w : World) (ino : Ino)
    (hb : Bound m w ino) (hoff : m.backupCount ≤ 0 ∨ m.maxBytes ≤ 0)
    (calls : List (String × List Value)) :
    (emitSeq m w calls).1 = m ∧
    (emitSeq m w calls).2.2 = List.replicate calls.length none ∧
    (emitSeq m w calls).2.1.names = w.names ∧
    (emitSeq m w calls).2.1.next = w.next ∧
    (emitSeq m w calls).2.1.content m.baseFileName = some (w.data ino ++ allLines calls) ∧
    (∀ i, i ≠ ino → (emitSeq m w calls).2.1.data i = w.data i) ∧
    (emitSeq m w calls).2.1.stderr = w.stderr := by
  rw [emitSeq_disabled m ino hoff calls w hb]
  refine ⟨rfl, rfl, rfl, rfl, ?_, ?_, rfl⟩
  · simp [World.content, hb.2.2]
  · intro i hi
    simp [Function.update_apply, hi]

theorem C5_rotation_disabled_append_only_witness :
    ((demoLogger 1 0).backupCount ≤ 0 ∨ (demoLogger 1 0).maxBytes ≤ 0) ∧
    (emitSeq (demoLogger 1 0) demoWorld
      [(demoHeader, demoRecord), (demoHeader, demoRecord)]).2.1.names = demoWorld.names ∧
    (emitSeq (demoLogger 1 0) demoWorld
      [(demoHeader, demoRecord), (demoHeader, demoRecord)]).2.1.content "app.log"
      = some (demoWorld.data 0 ++ allLines [(demoHeader, demoRecord), (demoHeader, demoRecord)]) :=
  ⟨Or.inl (by decide),
    (C5_rotation_disabled_append_only (demoLogger 1 0) demoWorld 0 ⟨rfl, rfl, rfl⟩
      (Or.inl (by decide)) [(demoHeader, demoRecord), (demoHeader, demoRecord)]).2.2.1,
    (C5_rotation_disabled_append_only (demoLogger 1 0) demoWorld 0 ⟨rfl, rfl, rfl⟩
      (Or.inl (by decide)) [(demoHeader, demoRecord), (demoHeader, demoRecord)]).2.2.2.2.1⟩

/-! ## Errors -/

/-- Claim C6.  Fail-closed size check.  For every logger with `maxBytes > 0`,
if `Stat` on the current file fails, `emit` returns that error, and the logger
and the world (every file, the directory, standard error) are as before the
call: the record is written nowhere and no rollover is performed. -/
theorem C6_fail_closed_size_check (m : MyLogger) (w : World) (hdr : String)
    (record : List Value) (err : Error) (hM : 0 < m.maxBytes)
    (hstat : fileStat m.baseFilePrt w = .error err) :
    emit m w hdr record = (m, w, some err) ∧ rollsOver m w record = false := by
  have h : shouldRollover m w record = (false, some err) := by
    simp [shouldRollover, hM, hstat]
  exact ⟨emit_of_error m w hdr record err h, by simp [rollsOver, h]⟩

theorem C6_fail_closed_size_check_witness :
    (0 : Int) < brokenLogger.maxBytes ∧
    emit brokenLogger demoWorld demoHeader demoRecord
      = (brokenLogger, demoWorld, some Error.ErrInvalid) :=
  ⟨by decide,
    (C6_fail_closed_size_check brokenLogger demoWorld demoHeader demoRecord Error.ErrInvalid
      (by decide) rfl).1⟩

/-- Claim C7, as the code has it.  The error `emit` returns is the error of
the size check and nothing else: whenever the check succeeds `emit` returns
nil, whether the write succeeded or not. -/
theorem C7_emit_error_is_check_error (m : MyLogger) (w : World) (hdr : String)
    (record : List Value) :
    (emit m w hdr record).2.2 = (shouldRollover m w record).2 := by
  rcases shouldRollover_cases m w record with ⟨err, h⟩ | h | h
  · rw [emit_of_error m w hdr record err h, h]
  · rw [emit_of_true m w hdr record h, h]
  · rw [emit_of_false m w hdr record h, h]

/-- Claim C7 fails as stated: on a logger whose base file cannot be reopened
after the rollover, the write of the line fails with `ErrInvalid` and `emit`
returns nil; the record is in neither the old nor a new base file. -/
theorem C7_write_error_not_surfaced :
    emitWriteResult (demoLogger 1 1) deniedWorld demoHeader demoRecord = some Error.ErrInvalid ∧
    (emit (demoLogger 1 1) deniedWorld demoHeader demoRecord).2.2 = none ∧
    (emit (demoLogger 1 1) deniedWorld demoHeader demoRecord).2.1.content "app.log" = none ∧
    (emit (demoLogger 1 1) deniedWorld demoHeader demoRecord).2.1.content "app.log.1"
      = some "c\n" := by
  decide

/-! ## The logger on standard error -/

theorem emitSeq_stderr (calls : List (String × List Value)) : ∀ w : World,
    emitSeq stderrLogger w calls =
      (stderrLogger, { w with stderr := w.stderr ++ allLines calls },
        List.replicate calls.length none) := by
  induction calls with
  | nil => intro w; simp [emitSeq, allLines]
  | cons c rest ih =>
    intro w
    have he : emit stderrLogger w c.1 c.2 =
        (stderrLogger, { w with stderr := w.stderr ++ (c.1 ++ Sprintln c.2) }, none) := by
      have h : shouldRollover stderrLogger w c.2 = (false, none) := by
        simp [shouldRollover, stderrLogger]
      rw [emit_of_false _ _ _ _ h]
      simp [Println, stderrLogger]
    simp only [emitSeq, he, ih, allLines, List.length_cons, List.replicate_succ,
      String.append_assoc]

/-- Claim C8.  Empty base path never touches the file system.  For every
level, `maxBytes` and `backupCount`, `NewLog(level, "", maxBytes, backupCount)`
returns a logger and no error and leaves the world alone.  That logger has a
nil file handle, on which `Stat` would fail; its size check never calls it and
never asks for a rollover; and every sequence of calls `emit` on it returns no
error, leaves the logger as it is, appends its lines to standard error and
changes nothing else in the world: no file is created, renamed or deleted. -/
theorem C8_empty_base_path (level maxBytes backupCount : Int) (w : World) :
    NewLog level "" maxBytes backupCount w = (w, .ok stderrLogger) ∧
    stderrLogger.out = .stderr ∧
    (∀ w1 : World, fileStat stderrLogger.baseFilePrt w1 = .error Error.ErrInvalid) ∧
    (∀ (w1 : World) (record : List Value),
      shouldRollover stderrLogger w1 record = (false, none) ∧
      rollsOver stderrLogger w1 record = false) ∧
    (∀ (w1 : World) (calls : List (String × List Value)),
      emitSeq stderrLogger w1 calls =
        (stderrLogger, { w1 with stderr := w1.stderr ++ allLines calls },
          List.replicate calls.length none)) := by
  refine ⟨by simp [NewLog], rfl, fun _ => rfl, ?_, fun w1 calls => emitSeq_stderr calls w1⟩
  intro w1 record
  have h : shouldRollover stderrLogger w1 record = (false, none) := by
    simp [shouldRollover, stderrLogger]
  exact ⟨h, by simp [rollsOver, h]⟩

/-! ## Level filtering -/

/-- A level method forwards to `emit` exactly when the logger's level is at
most the level of the method. -/
theorem log_filter (m : MyLogger) (s : Severity) (w : World) (hdr : String) (v : List Value) :
    (m.level ≤ s.level → ∃ tag : String,
      m.log s w hdr v =
        ((emit m w hdr (Value.val "string" tag :: v)).1,
          (emit m w hdr (Value.val "string" tag :: v)).2.1)) ∧
    (s.level < m.level → m.log s w hdr v = (m, w)) := by
  cases s <;>
    simp only [MyLogger.log, MyLogger.Trace, MyLogger.Debug, MyLogger.Info, MyLogger.Warn,
      MyLogger.Error, MyLogger.Critical, Severity.level] <;>
    refine ⟨fun h => ⟨_, by rw [if_pos h]; rfl⟩, fun h => by rw [if_neg (not_le.mpr h)]⟩

/-- On a non-empty path that can be opened, `NewLog` stores the level. -/
theorem NewLog_file_level (level maxBytes backupCount : Int) (base : String) (w : World)
    (m : MyLogger) (w1 : World) (hbase : base ≠ "")
    (h : NewLog level base maxBytes backupCount w = (w1, .ok m)) :
    m.level = level ∧ m.maxBytes = maxBytes ∧ m.backupCount = backupCount ∧
    m.baseFileName = base ∧ ∃ ino, Bound m w1 ino := by
  unfold NewLog at h
  simp only [hbase, ne_eq, not_false_eq_true, if_true] at h
  cases hd : w.denied base with
  | true => simp [osOpenFile, hd] at h
  | false =>
    cases hn : w.names base with
    | none =>
      simp only [osOpenFile, hd, hn, Bool.false_eq_true, if_false, Prod.mk.injEq,
        Except.ok.injEq] at h
      obtain ⟨rfl, rfl⟩ := h
      exact ⟨rfl, rfl, rfl, rfl, w.next, rfl, rfl, by simp⟩
    | some ino =>
      simp only [osOpenFile, hd, hn, Bool.false_eq_true, if_false, Prod.mk.injEq,
        Except.ok.injEq] at h
      obtain ⟨rfl, rfl⟩ := h
      exact ⟨rfl, rfl, rfl, rfl, ino, rfl, rfl, hn⟩

/-- Claim C4 fails on the code for the empty base path: `NewLog` does not
store the level on that branch, so the logger built with minimum level
`LevelError` has level `LevelTrace`, and its method `Trace` writes a line to
standard error although trace is below error. -/
theorem C4_stderr_logger_drops_level (w : World) (hdr : String) (v : List Value) :
    NewLog LevelError "" 0 0 w = (w, .ok stderrLogger) ∧
    stderrLogger.level = LevelTrace ∧
    Severity.Trace.level < LevelError ∧
    (stderrLogger.log .Trace w hdr v).2.stderr
      = w.stderr ++ (hdr ++ Sprintln (Value.val "string" "[T]" :: v)) := by
  refine ⟨by simp [NewLog], rfl, by decide, ?_⟩
  have h : shouldRollover stderrLogger w (Value.val "string" "[T]" :: v) = (false, none) := by
    simp [shouldRollover, stderrLogger]
  have hl : stderrLogger.level ≤ LevelTrace := by decide
  simp only [MyLogger.log, MyLogger.Trace, if_pos hl, List.singleton_append,
    emit_of_false _ _ _ _ h]
  simp [Println, stderrLogger]

/-! ## Files outside the backup chain -/

/-- Claim C9 fails on the code: the loop of `doRollover` runs down to `i = 0`
with the source `base.0`, so a file `app.log.0` next to the base file is moved
to `app.log.1` and removed there; after the rollover no path names it. -/
theorem C9_base_zero_is_deleted :
    rotatedName "app.log" 0 = "app.log.0" ∧
    strayWorld.content "app.log.0" = some "keep\n" ∧
    (shiftLoop "app.log" 1 strayWorld).content "app.log.1" = some "keep\n" ∧
    (doRollover (demoLogger 100 1) strayWorld).2.content "app.log.0" = none ∧
    (doRollover (demoLogger 100 1) strayWorld).2.content "app.log.1" = some "c\n" ∧
    (doRollover (demoLogger 100 1) strayWorld).2.content "app.log" = some "" := by
  decide

/-! ## The size estimate -/

theorem utf8ByteSize_append (a b : String) :
    (a ++ b).utf8ByteSize = a.utf8ByteSize + b.utf8ByteSize := by
  cases a with
  | mk as =>
    cases b with
    | mk bs =>
      show String.utf8ByteSize ⟨as ++ bs⟩ = _
      simp [String.utf8ByteSize_mk]

theorem intercalate_go_size (s : String) (l : List String) : ∀ acc : String,
    (String.intercalate.go acc s l).utf8ByteSize =
      acc.utf8ByteSize + (l.map (fun a => s.utf8ByteSize + a.utf8ByteSize)).sum := by
  induction l with
  | nil => intro acc; simp [String.intercalate.go]
  | cons a rest ih =>
    intro acc
    simp only [String.intercalate.go, ih, utf8ByteSize_append, List.map_cons, List.sum_cons]
    omega

theorem intercalate_size (s : String) (a : String) (l : List String) :
    (s.intercalate (a :: l)).utf8ByteSize + s.utf8ByteSize =
      ((a :: l).map (fun a => s.utf8ByteSize + a.utf8ByteSize)).sum := by
  simp only [String.intercalate, intercalate_go_size, List.map_cons, List.sum_cons]
  omega

theorem extra_size (v : Value) :
    v.extra.utf8ByteSize = v.overhead + v.text.utf8ByteSize := by
  cases v with
  | nil => rfl
  | val ty t =>
    simp only [Value.extra, Value.overhead, Value.text, utf8ByteSize_append]
    have : ("=" : String).utf8ByteSize = 1 := by decide
    omega

theorem sum_extra_size (k : Nat) (l : List Value) :
    (l.map (fun v => k + 2 + v.extra.utf8ByteSize)).sum =
      (l.map (fun v => k + 1 + v.text.utf8ByteSize)).sum + l.length
        + (l.map Value.overhead).sum := by
  induction l with
  | nil => simp
  | cons v rest ih =>
    simp only [List.map_cons, List.sum_cons, List.length_cons]
    rw [ih, extra_size]
    omega

/-- The bytes that `recordSize` counts beyond the line written.  For a record
of `n ≥ 1` values, `recordSize + len(header) = written + 8 + n + Σ overhead`,
where `written` is the length of the line written for the record (header,
fields separated by spaces, newline) and the overhead of a value is the length
of its type name plus one, and zero for nil. -/
theorem recordSize_identity (hdr : String) (first : Value) (rest : List Value) :
    recordSize (first :: rest) + hdr.utf8ByteSize =
      (hdr ++ Sprintln (first :: rest)).utf8ByteSize + 8 + (first :: rest).length
        + ((first :: rest).map Value.overhead).sum ∧
    (recordSize (first :: rest) ≤ (hdr ++ Sprintln (first :: rest)).utf8ByteSize ↔
      8 + (first :: rest).length + ((first :: rest).map Value.overhead).sum
        ≤ hdr.utf8ByteSize) := by
  have h1 := intercalate_size ", " first.extra (rest.map Value.extra)
  have h2 := intercalate_size " " first.text (rest.map Value.text)
  have h3 := sum_extra_size 0 (first :: rest)
  have e1 : ("%!(EXTRA " : String).utf8ByteSize = 9 := by decide
  have e2 : (")" : String).utf8ByteSize = 1 := by decide
  have e3 : (", " : String).utf8ByteSize = 2 := by decide
  have e4 : (" " : String).utf8ByteSize = 1 := by decide
  have e5 : ("\n" : String).utf8ByteSize = 1 := by decide
  have key : recordSize (first :: rest) + hdr.utf8ByteSize =
      (hdr ++ Sprintln (first :: rest)).utf8ByteSize + 8 + (first :: rest).length
        + ((first :: rest).map Value.overhead).sum := by
    simp only [recordSize, SprintfEmpty, Sprintln, utf8ByteSize_append, e1, e2, e5,
      List.map_cons]
    simp only [e3, e4, List.map_cons, List.map_map, Function.comp_def, List.sum_cons,
      List.length_cons, Nat.zero_add] at h1 h2 h3 ⊢
    simp only [Nat.add_comm 2, Nat.add_comm 1] at h1 h2 h3 ⊢
    omega
  exact ⟨key, by omega⟩

/-- Claim C10 fails on the code: `shouldRollover` measures the record with
`fmt.Sprintf("", record...)`, which is the report `%!(EXTRA string=[I],
string=x)` for the record of `Info("x")`.  The estimate is 30 bytes while the
line written is 26 bytes, so the estimate is larger than what the write
appends; on an empty base file with `maxBytes = 28` the check asks for a
rollover although the line alone stays below the limit. -/
theorem C10_estimate_overcounts :
    SprintfEmpty demoRecord = "%!(EXTRA string=[I], string=x)" ∧
    recordSize demoRecord = 30 ∧
    (demoHeader ++ Sprintln demoRecord).utf8ByteSize = 26 ∧
    ¬ recordSize demoRecord ≤ (demoHeader ++ Sprintln demoRecord).utf8ByteSize ∧
    (freshWorld.data 0).utf8ByteSize = 0 ∧
    shouldRollover (demoLogger 28 2) freshWorld demoRecord = (true, none) := by
  decide

/-! ## Well-formedness is an invariant -/

theorem shiftStep_names_from (base : String) (i : Nat) (w : World) (x : String) (ino : Ino)
    (h : (shiftStep base i w).names x = some ino) : ∃ y, w.names y = some ino := by
  rw [shiftStep_names] at h
  by_cases h1 : x = rotatedName base (i + 1)
  · rw [if_pos h1] at h
    exact ⟨_, h⟩
  · rw [if_neg h1] at h
    by_cases h2 : x = rotatedName base i
    · rw [if_pos h2] at h
      cases h
    · rw [if_neg h2] at h
      exact ⟨_, h⟩

theorem shiftLoop_names_from (base : String) (n : Nat) : ∀ (w : World) (x : String) (ino : Ino),
    (shiftLoop base n w).names x = some ino → ∃ y, w.names y = some ino := by
  induction n with
  | zero => intro w x ino h; exact ⟨x, h⟩
  | succ n ih =>
    intro w x ino h
    obtain ⟨y, hy⟩ := ih _ x ino h
    exact shiftStep_names_from base n w y ino hy

theorem doRollover_WF (m : MyLogger) (w : World) (hwf : w.WF) : (doRollover m w).2.WF := by
  by_cases hK : 0 < m.backupCount
  · intro x ino h
    have hnext : w.next ≤ (doRollover m w).2.next := by
      rw [(doRollover_rest m w hK).2.1]
      split
      · exact Nat.le_refl _
      · exact Nat.le_succ _
    rw [doRollover_names m w hK] at h
    by_cases h1 : x = m.baseFileName
    · rw [if_pos h1] at h
      by_cases h2 : w.denied m.baseFileName = true
      · rw [if_pos h2] at h
        cases h
      · rw [if_neg h2] at h
        cases h
        rw [(doRollover_rest m w hK).2.1, if_neg h2]
        exact Nat.lt_succ_self _
    · rw [if_neg h1] at h
      by_cases h3 : x = rotatedName m.baseFileName 1
      · rw [if_pos h3] at h
        exact Nat.lt_of_lt_of_le (hwf _ _ h) hnext
      · rw [if_neg h3] at h
        obtain ⟨y, hy⟩ := shiftLoop_names_from _ _ _ _ _ h
        exact Nat.lt_of_lt_of_le (hwf _ _ hy) hnext
  · rw [doRollover_disabled m w (not_lt.mp hK)]
    exact hwf

theorem Println_WF (out : Writer) (hdr : String) (record : List Value) (w : World)
    (hwf : w.WF) : (Println out hdr record w).1.WF := by
  intro x ino h
  rw [(Println_rest out hdr record w).1] at h
  rw [(Println_rest out hdr record w).2.1]
  exact hwf x ino h

/-- The calls `emit` keep the file system well-formed. -/
theorem emit_WF (m : MyLogger) (w : World) (hdr : String) (record : List Value)
    (hwf : w.WF) : (emit m w hdr record).2.1.WF := by
  rcases shouldRollover_cases m w record with ⟨err, h⟩ | h | h
  · rw [emit_of_error m w hdr record err h]
    exact hwf
  · rw [emit_of_true m w hdr record h]
    exact Println_WF _ _ _ _ (doRollover_WF m w hwf)
  · rw [emit_of_false m w hdr record h]
    exact Println_WF _ _ _ _ hwf

/-- The call `NewLog` keeps the file system well-formed. -/
theorem NewLog_WF (level maxBytes backupCount : Int) (base : String) (w : World)
    (hwf : w.WF) : (NewLog level base maxBytes backupCount w).1.WF := by
  unfold NewLog
  by_cases hbase : base = ""
  · simpa [hbase] using hwf
  · simp only [ne_eq, hbase, not_false_eq_true, if_true]
    cases hd : w.denied base with
    | true => simpa [osOpenFile, hd] using hwf
    | false =>
      cases hn : w.names base with
      | some ino => simpa [osOpenFile, hd, hn] using hwf
      | none =>
        simp only [osOpenFile, hd, hn, Bool.false_eq_true, if_false]
        intro x ino h
        simp only [Function.update_apply] at h
        by_cases hx : x = base
        · rw [if_pos hx] at h
          cases h
          exact Nat.lt_succ_self _
        · rw [if_neg hx] at h
          exact Nat.lt_succ_of_lt (hwf x ino h)

end RotatingFileLogger
